import Mathlib

/-!
Shallow embedding of `src/teacup.js` (the Teacup language core):
lexer, prefix tagger, precedence parser, and pattern-dispatched
tree-walking interpreter, together with the Teacup language definition
(token definitions, priority table, root environment, handler table).

Conventions used throughout:
* JS strings are Lean `String`s; token streams are `List Token`.
* JS numbers are modelled by `NumV`: an exact rational for finite doubles
  (exact for every value the verified programs produce) plus `nan`,
  `inf`, `ninf` for the special doubles produced by e.g. `3 - undefined`
  and `1 / 0`.
* `undefined`/`null` are explicit `Value` constructors.
* Thrown JS exceptions are modelled by `Except Err`.
* JS's unbounded recursion is modelled with a fuel parameter; every
  theorem either quantifies over fuel or instantiates it concretely.
* A node's `type` field (its signature) is a `String` in the source,
  produced by joining components with single spaces; here it is kept as
  the component list `List String` (the join of which is the JS string),
  and the regular-expression guards of the source are translated into
  decidable predicates on that component list, including the
  "no space inside a component" constraints that the JS regexes impose.
-/

namespace Teacup

/-- Token kinds of `Teacup.tokenDefinitions` plus the tagger-only
`prefix` kind.  (`null`-kind gap pieces of the lexer's split are not
represented: the lexer filters them out before returning.) -/
inductive TokKind where
  | numberKind | openKind | middleKind | closeKind
  | infixKind | wordKind | stringKind | commentKind | prefixKind
deriving DecidableEq, Repr

/-- The JS kind string of a token kind (the value of `token.type`). -/
def kindStr : TokKind → String
  | .numberKind => "number"
  | .openKind => "open"
  | .middleKind => "middle"
  | .closeKind => "close"
  | .infixKind => "infix"
  | .wordKind => "word"
  | .stringKind => "string"
  | .commentKind => "comment"
  | .prefixKind => "prefix"

/-- A token: `{type, text, start, end}` (the `end` field is called
`stop` here because `end` is a Lean keyword). -/
structure Token where
  type : TokKind
  text : String
  start : Nat
  stop : Nat
deriving DecidableEq, Repr

/-! ### Lexer

`Lexer.process` splits the text with the big alternation regex built
from `Teacup.tokenDefinitions` (group order: number, open, middle,
close, infix, word, string, comment), keeping capture groups, and then
filters out pieces with `null` kind (unmatched gaps), kind `comment`,
or empty text.  The JS regex engine finds, at the leftmost position
where any alternative matches, the first alternative (in declaration
order) that matches there; each alternative is hand-compiled below. -/

def isDigitChar (c : Char) : Bool := '0' ≤ c ∧ c ≤ '9'

/-- JS `\w`: `[A-Za-z0-9_]`. -/
def isWordChar (c : Char) : Bool :=
  ('a' ≤ c ∧ c ≤ 'z') ∨ ('A' ≤ c ∧ c ≤ 'Z') ∨ isDigitChar c ∨ c = '_'

/-- `\b` immediately before position `p`: start of text or previous
char not a word char; the matched keyword starts with a word char. -/
def boundaryBefore (prev : Option Char) : Bool :=
  match prev with
  | none => true
  | some c => ¬ isWordChar c

/-- `\b` immediately after a keyword: end of text or next char not a
word char. -/
def boundaryAfter (rest : List Char) : Bool :=
  match rest with
  | [] => true
  | c :: _ => ¬ isWordChar c

/-- Try to match a keyword (with both word boundaries) at the start of
`rest`; returns the keyword length. -/
def tryKeyword (kw : String) (prev : Option Char) (rest : List Char) : Option Nat :=
  if boundaryBefore prev ∧ rest.take kw.length = kw.toList ∧
      boundaryAfter (rest.drop kw.length) then
    some kw.length
  else none

/-- First keyword of the list that matches. -/
def tryKeywords (kws : List String) (prev : Option Char) (rest : List Char) : Option Nat :=
  match kws with
  | [] => none
  | kw :: rest' =>
    match tryKeyword kw prev rest with
    | some n => some n
    | none => tryKeywords rest' prev rest

/-- `number: \d+(?:\.\d+)?(?:[eE][+-]?\d+)?` (greedy). -/
def tryNumber (rest : List Char) : Option Nat :=
  let ds := rest.takeWhile isDigitChar
  if ds.length = 0 then none else
  let n1 := ds.length
  let r1 := rest.drop n1
  -- optional fraction `\.\d+`
  let n2 :=
    match r1 with
    | '.' :: r2 =>
      let fs := r2.takeWhile isDigitChar
      if fs.length = 0 then 0 else fs.length + 1
    | _ => 0
  let r2 := r1.drop n2
  -- optional exponent `[eE][+-]?\d+`
  let n3 :=
    match r2 with
    | e :: r3 =>
      if e = 'e' ∨ e = 'E' then
        match r3 with
        | s :: r4 =>
          if s = '+' ∨ s = '-' then
            let es := r4.takeWhile isDigitChar
            if es.length = 0 then 0 else es.length + 2
          else
            let es := r3.takeWhile isDigitChar
            if es.length = 0 then 0 else es.length + 1
        | [] => 0
      else 0
    | [] => 0
  some (n1 + n2 + n3)

/-- `open: [\(\[\{]|\b(?:let|for|if|begin)\b`. -/
def tryOpenTok (prev : Option Char) (rest : List Char) : Option Nat :=
  match rest with
  | c :: _ =>
    if c = '(' ∨ c = '[' ∨ c = '{' then some 1
    else tryKeywords ["let", "for", "if", "begin"] prev rest
  | [] => none

/-- `middle: \b(?:then|elif|else|in|do|when)\b`. -/
def tryMiddleTok (prev : Option Char) (rest : List Char) : Option Nat :=
  tryKeywords ["then", "elif", "else", "in", "do", "when"] prev rest

/-- `close: [\)\]\}]|\bend\b`. -/
def tryCloseTok (prev : Option Char) (rest : List Char) : Option Nat :=
  match rest with
  | c :: _ =>
    if c = ')' ∨ c = ']' ∨ c = '}' then some 1
    else tryKeywords ["end"] prev rest
  | [] => none

/-- The infix symbol class `[!@$%^&*|/?.:~+=<>-]`. -/
def isInfixSymChar (c : Char) : Bool :=
  c = '!' ∨ c = '@' ∨ c = '$' ∨ c = '%' ∨ c = '^' ∨ c = '&' ∨ c = '*' ∨
  c = '|' ∨ c = '/' ∨ c = '?' ∨ c = '.' ∨ c = ':' ∨ c = '~' ∨ c = '+' ∨
  c = '=' ∨ c = '<' ∨ c = '>' ∨ c = '-'

/-- `infix: [,;\n]|[!@$%^&*|/?.:~+=<>-]+|\b(?:and|or|not)\b`. -/
def tryInfixTok (prev : Option Char) (rest : List Char) : Option Nat :=
  match rest with
  | c :: _ =>
    if c = ',' ∨ c = ';' ∨ c = '\n' then some 1
    else
      let syms := rest.takeWhile isInfixSymChar
      if syms.length ≠ 0 then some syms.length
      else tryKeywords ["and", "or", "not"] prev rest
  | [] => none

/-- `word: \w+` (greedy). -/
def tryWordTok (rest : List Char) : Option Nat :=
  let ws := rest.takeWhile isWordChar
  if ws.length = 0 then none else some ws.length

/-- Index of the first `"` in the list, if any. -/
def firstQuote : List Char → Option Nat
  | [] => none
  | c :: rest => if c = '"' then some 0 else (firstQuote rest).map (· + 1)

/-- `string: "(?:[^"]|\\.)*"`.  Backtracking ends the match at the
first `"` after the opening quote (`[^"]` is preferred over `\\.` and
consumes backslashes one char at a time, so an escaped quote still
terminates the match); no match if the quote is never closed. -/
def tryStringTok (rest : List Char) : Option Nat :=
  match rest with
  | '"' :: r1 => (firstQuote r1).map (fun i => i + 2)
  | _ => none

/-- `comment: #[^\n]*(?=\n|$)` — `#` to end of line. -/
def tryCommentTok (rest : List Char) : Option Nat :=
  match rest with
  | '#' :: r1 => some (1 + (r1.takeWhile (· ≠ '\n')).length)
  | _ => none

/-- First alternative of the big alternation that matches at this
position, in the declaration order of `Teacup.tokenDefinitions`. -/
def tryTokenAt (prev : Option Char) (rest : List Char) : Option (TokKind × Nat) :=
  match tryNumber rest with
  | some n => some (.numberKind, n)
  | none =>
  match tryOpenTok prev rest with
  | some n => some (.openKind, n)
  | none =>
  match tryMiddleTok prev rest with
  | some n => some (.middleKind, n)
  | none =>
  match tryCloseTok prev rest with
  | some n => some (.closeKind, n)
  | none =>
  match tryInfixTok prev rest with
  | some n => some (.infixKind, n)
  | none =>
  match tryWordTok rest with
  | some n => some (.wordKind, n)
  | none =>
  match tryStringTok rest with
  | some n => some (.stringKind, n)
  | none =>
  match tryCommentTok rest with
  | some n => some (.commentKind, n)
  | none => none

/-- Main lexer loop.  Characters at positions where no alternative
matches become part of a `null`-kind gap piece, which `process`'s
filter discards (it also discards `comment` tokens and empty pieces),
so they are simply skipped here; `start`/`end` offsets still count
them.  `fuel` dominates the remaining text length. -/
def lexLoop : Nat → Option Char → List Char → Nat → List Token
  | 0, _, _, _ => []
  | _ + 1, _, [], _ => []
  | fuel + 1, prev, c :: rtail, pos =>
    match tryTokenAt prev (c :: rtail) with
    | none => lexLoop fuel (some c) rtail (pos + 1)
    | some (kind, len) =>
      let len := max len 1
      let text := String.mk ((c :: rtail).take len)
      let rest' := (c :: rtail).drop len
      let prev' := ((c :: rtail).take len).getLast?
      let tok : Token := ⟨kind, text, pos, pos + len⟩
      if kind = .commentKind then
        lexLoop fuel prev' rest' (pos + len)
      else
        tok :: lexLoop fuel prev' rest' (pos + len)

/-- `new Lexer(Teacup.tokenDefinitions).process(text)`. -/
def teacupLex (text : String) : List Token :=
  lexLoop (text.length + 1) none text.toList 0

/-! ### Prefix tagger

`tagPrefixOperators` walks the stream with `prevType`, initially the
sentinel string `"start"`.  The source skips a leading `open` token
while `prevType` is still `"start"`, and retags an `infix` token as
`prefix` when `prevType` is `"infix"` or `"open"`; note that in the
retagging branch `prevType` is assigned the token's *old* type
(`"infix"`) before the token is rewritten to `"prefix"`. -/

/-- `prevType`: the sentinel `"start"` or a token kind string. -/
inductive PrevT where
  | start
  | kind (k : TokKind)
deriving DecidableEq, Repr

def tagLoop (prev : PrevT) : List Token → List Token
  | [] => []
  | t :: ts =>
    if prev = .start ∧ t.type = .openKind then
      t :: tagLoop (.kind .openKind) ts
    else if t.type = .infixKind ∧ (prev = .kind .infixKind ∨ prev = .kind .openKind) then
      { t with type := .prefixKind } :: tagLoop (.kind .infixKind) ts
    else
      t :: tagLoop (.kind t.type) ts

/-- `tagPrefixOperators(tokens)` (as a function on the stream; the
source mutates the array in place and returns it). -/
def tagPrefixOperators (tokens : List Token) : List Token :=
  tagLoop .start tokens

/-! ### Priorities -/

structure Prio where
  left : Int
  right : Int
deriving DecidableEq, Repr

def lassoc (n : Int) : Prio := ⟨n, n - 1⟩
def rassoc (n : Int) : Prio := ⟨n, n + 1⟩
def xassoc (n : Int) : Prio := ⟨n, n⟩
def prefixPrio (n : Int) : Prio := ⟨n, 10004⟩
def suffixPrio (n : Int) : Prio := ⟨10005, n⟩

/-- `Teacup.priorities` as a lookup function (the source object has a
null prototype, so plain key lookup). -/
def priorities : String → Option Prio
  | "type:open" => some (prefixPrio 5)
  | "type:middle" => some (xassoc 5)
  | "type:close" => some (suffixPrio 5)
  | "\n" => some (xassoc 15)
  | ";" => some (xassoc 15)
  | "," => some (xassoc 25)
  | "=" => some (rassoc 35)
  | "->" => some (rassoc 35)
  | "not" => some (prefixPrio 105)
  | "or" => some (lassoc 115)
  | "and" => some (lassoc 125)
  | ">" => some (xassoc 205)
  | "<" => some (xassoc 205)
  | ">=" => some (xassoc 205)
  | "<=" => some (xassoc 205)
  | "==" => some (xassoc 205)
  | ".." => some (xassoc 305)
  | "+" => some (lassoc 505)
  | "-" => some (lassoc 505)
  | "prefix:-" => some (prefixPrio 605)
  | "*" => some (lassoc 605)
  | "/" => some (lassoc 605)
  | "%" => some (lassoc 605)
  | "^" => some (rassoc 705)
  | "type:infix" => some (xassoc 905)
  | "type:prefix" => some (prefixPrio 905)
  | "." => some ⟨15005, 1004⟩
  | "type:word" => some (xassoc 20005)
  | "type:number" => some (xassoc 20005)
  | "type:string" => some (xassoc 20005)
  | _ => none

/-! ### Errors

Thrown JS exceptions.  `hostNotModelled` marks host behaviour outside
the modelled fragment (e.g. fields of the host `Math` object, implicit
string/object coercions in arithmetic): no verified program reaches it.
`fuelExhausted` is the artefact of the fuel encoding. -/

inductive Err where
  | synUnknownOperator (text : String)   -- `SyntaxError("Unknown operator: …")`
  | synUnknownNode                       -- `SyntaxError("Unknown node type: …")`
  | synInvalidBinding                    -- `SyntaxError("Invalid variable declaration.")`
  | refUndefinedVar (name : String)      -- `ReferenceError("Undefined variable: …")`
  | expectedGuard                        -- `Error("Expected '…', got '…'")` in `extractArgs`
  | typeError                            -- host TypeError (e.g. property of undefined)
  | rangeError                           -- host RangeError (invalid array length)
  | hostNotModelled
  | fuelExhausted
deriving DecidableEq, Repr

/-! ### AST

The parser's output values (`middle` slots) are either bare tokens
(trivial handles collapsed by the finalizer) or nodes
`{type, args, ops, start, end}`.  The node's `type` (signature) is
kept as its space-separated component list. -/

inductive Ast where
  | tok (t : Token)
  | node (sig : List String) (args : List Ast) (ops : List Token)
      (start : Nat) (stop : Nat)
deriving Repr

def Ast.start : Ast → Nat
  | .tok t => t.start
  | .node _ _ _ s _ => s

def Ast.stop : Ast → Nat
  | .tok t => t.stop
  | .node _ _ _ _ e => e

/-! ### Parser -/

/-- `getPrio`: three-key fallback, then `SyntaxError`. -/
def getPrio (t : Token) : Except Err Prio :=
  match priorities (kindStr t.type ++ ":" ++ t.text) with
  | some p => .ok p
  | none =>
  match priorities t.text with
  | some p => .ok p
  | none =>
  match priorities ("type:" ++ kindStr t.type) with
  | some p => .ok p
  | none => .error (.synUnknownOperator t.text)

/-- Result of `Parser.prototype.order`: the string `"done"` or
`Math.sign(pb - pa) ∈ {-1, 0, 1}`. -/
inductive OrdRes where
  | done
  | val (i : Int)
deriving DecidableEq, Repr

def order (a b : Option Token) : Except Err OrdRes :=
  match a, b with
  | none, none => .ok .done
  | none, some _ => .ok (.val 1)
  | some _, none => .ok (.val (-1))
  | some ta, some tb => do
    let pa ← getPrio ta
    let pb ← getPrio tb
    .ok (.val (Int.sign (pb.right - pa.left)))

/-- An element of a handle under construction: an operand slot
(an AST or JS `null`) or an operator slot (a token, or JS `undefined`
for the `left` pushed into the initial handle `[null, left]`). -/
inductive HItem where
  | opd (a : Option Ast)
  | oper (t : Option Token)
deriving Repr

/-- `left = current[current.length - 1]` after popping: in every
reachable state the last element is an operator slot.  (Were it an
operand, the source would go on to look up the priority of a non-token
and fail; that state is unreachable and mapped to `none`.) -/
def lastOper (h : List HItem) : Option Token :=
  match h.getLast? with
  | some (.oper t) => t
  | _ => none

/-- The standard finalizer `finalize(node)`.  A 3-slot handle with both
outer operand slots `null` collapses to its middle element unchanged
(in every reachable such handle the middle is a token).  Otherwise it
builds the `{type, args, ops, start, end}` node; an `undefined` in an
operator slot would crash the source (`x.text`), modelled as
`typeError` (unreachable). -/
def finalize (h : List HItem) : Except Err Ast :=
  match h with
  | [.opd none, .oper t?, .opd none] =>
    match t? with
    | some t => .ok (.tok t)
    | none => .error .typeError
  | _ =>
    if h.any (fun x => x matches .oper none) then .error .typeError
    else
      let sig := h.map (fun x =>
        match x with
        | .opd none => "_"
        | .opd (some _) => "E"
        | .oper (some t) => t.text
        | .oper none => "")
      let args := h.filterMap (fun x =>
        match x with
        | .opd (some a) => some a
        | _ => none)
      let ops := h.filterMap (fun x =>
        match x with
        | .oper (some t) => some t
        | _ => none)
      let start :=
        match h.head? with
        | some (.opd (some a)) => a.start
        | _ =>
          match h.get? 1 with
          | some (.oper (some t)) => t.start
          | _ => 0
      let stop :=
        match h.getLast? with
        | some (.opd (some a)) => a.stop
        | _ =>
          match h.get? (h.length - 2) with
          | some (.oper (some t)) => t.stop
          | _ => 0
      .ok (.node sig args ops start stop)

/-- The `Parser.prototype.process` loop.  State: the handle stack,
the current handle, `middle`, `left`, `right` and the not-yet-shifted
tokens.  One fuel unit per loop iteration. -/
def parseLoop (fuel : Nat) (stack : List (List HItem)) (current : List HItem)
    (middle : Option Ast) (left : Option Token) (right : Option Token)
    (toks : List Token) : Except Err (Option Ast) :=
  match fuel with
  | 0 => .error .fuelExhausted
  | fuel + 1 => do
    match ← order left right with
    | .done => .ok middle
    | .val 1 =>
      parseLoop fuel (current :: stack) [.opd middle, .oper right] none
        right toks.head? toks.tail
    | .val (-1) =>
      let m' ← finalize (current ++ [.opd middle])
      match stack with
      | [] => .error .typeError   -- `stack.pop()` on empty: unreachable
      | c :: s =>
        parseLoop fuel s c (some m') (lastOper c) right toks
    | _ =>
      parseLoop fuel stack (current ++ [.opd middle, .oper right]) none
        right toks.head? toks.tail

/-- `new Parser(Teacup.priorities, finalize).process(tokens)`:
initially `left = undefined`, `right = next()`,
`current = [null, left]`, `middle = null`.  The loop runs at most
twice per token plus once per closing step, so `4·n + 8` fuel always
suffices for the verified runs. -/
def parseTokens (tokens : List Token) : Except Err (Option Ast) :=
  parseLoop (4 * tokens.length + 8) [] [.opd none, .oper none] none
    none tokens.head? tokens.tail

/-! ### Values and environments

JS numbers are doubles; the programs verified here only produce values
on which double arithmetic is exact, so finite doubles are modelled by
rationals, with explicit `NaN`/`±Infinity`. -/

inductive NumV where
  | fin (q : Rat)
  | nan
  | inf
  | ninf
deriving DecidableEq, Repr

mutual
/-- Runtime values.  `closure` is `buildFunction`'s function object
(parameter declarations, body, defining environment); `builtin` is a
root-environment host function identified by its environment key, with
its `lazy` flag; `hostObj` stands for the host `Math` object (its
properties are outside the modelled fragment). -/
inductive Value where
  | num (n : NumV)
  | bool (b : Bool)
  | str (s : String)
  | undefV
  | nullv
  | list (elems : List Value)
  | closure (params : List Ast) (body : Ast) (env : Env)
  | builtin (name : String) (lzy : Bool)
  | hostObj (name : String)

/-- Prototype-chained environments.  `frame` is `Object.create(parent)`
with its own bindings (newest first — later writes shadow earlier
ones); `recFrame` is the mutable `newEnv` of a `let`: function
declarations are stored as syntax and closed over the *whole* frame at
lookup time, which models the source's closures over the mutated
`newEnv` seeing every binding of the `let`.  `undefEnv` is the JS
`undefined` accidentally passed as the environment by the indexing
handler (`this.eval(obj)`). -/
inductive Env where
  | nil
  | frame (bindings : List (String × Value)) (parent : Env)
  | recFrame (entries : List (String × REntry)) (parent : Env)
  | undefEnv

/-- An entry of a `let` frame: an already-computed value, or a function
declaration `f(params) = body` stored as syntax. -/
inductive REntry where
  | val (v : Value)
  | fnDecl (params : List Ast) (body : Ast)
end

/-- Own-bindings lookup, newest binding first. -/
def lookupBindings (bs : List (String × Value)) (x : String) : Option Value :=
  (bs.find? (fun b => b.1 = x)).map (·.2)

/-- `let`-frame lookup: the last-written entry wins (JS overwrite). -/
def lookupEntries (es : List (String × REntry)) (x : String) : Option REntry :=
  (es.reverse.find? (fun b => b.1 = x)).map (·.2)

/-- `text in env` / `env[text]` through the prototype chain.  A
function declaration of a `let` frame becomes a closure over that very
frame. -/
def lookupEnv : Env → String → Option Value
  | .nil, _ => none
  | .undefEnv, _ => none
  | .frame bs p, x =>
    match lookupBindings bs x with
    | some v => some v
    | none => lookupEnv p x
  | .recFrame es p, x =>
    match lookupEntries es x with
    | some (.val v) => some v
    | some (.fnDecl ps b) => some (.closure ps b (.recFrame es p))
    | none => lookupEnv p x

/-- `resolve(env, text)`: `ReferenceError` when not found; on the
`undefined` environment the JS `in` operator itself throws a
`TypeError`. -/
def resolve (env : Env) (text : String) : Except Err Value :=
  match env with
  | .undefEnv => .error .typeError
  | _ =>
    match lookupEnv env text with
    | some v => .ok v
    | none => .error (.refUndefinedVar text)

/-- JS truthiness: `false`, `±0`, `NaN`, `""`, `null`, `undefined` are
falsy; every other value (including `[]` and functions) is truthy. -/
def truthy : Value → Bool
  | .num (.fin q) => q ≠ 0
  | .num .nan => false
  | .num _ => true
  | .bool b => b
  | .str s => s ≠ ""
  | .undefV => false
  | .nullv => false
  | _ => true

/-! ### Numeric operations (exact fragment of double arithmetic) -/

/-- JS `ToNumber` on the value fragment where it is modelled
(`none` = coercion outside the modelled fragment, e.g. strings and
objects as arithmetic operands). -/
def toNumV : Value → Option NumV
  | .num n => some n
  | .bool b => some (.fin (if b then 1 else 0))
  | .nullv => some (.fin 0)
  | .undefV => some .nan
  | _ => none

def nAdd : NumV → NumV → NumV
  | .fin a, .fin b => .fin (a + b)
  | .nan, _ => .nan
  | _, .nan => .nan
  | .inf, .ninf => .nan
  | .ninf, .inf => .nan
  | .inf, _ => .inf
  | _, .inf => .inf
  | .ninf, _ => .ninf
  | _, .ninf => .ninf

def nNeg : NumV → NumV
  | .fin a => .fin (-a)
  | .nan => .nan
  | .inf => .ninf
  | .ninf => .inf

def nSub (a b : NumV) : NumV := nAdd a (nNeg b)

def nMul : NumV → NumV → NumV
  | .fin a, .fin b => .fin (a * b)
  | .nan, _ => .nan
  | _, .nan => .nan
  | .inf, .fin b => if b = 0 then .nan else if 0 < b then .inf else .ninf
  | .fin a, .inf => if a = 0 then .nan else if 0 < a then .inf else .ninf
  | .ninf, .fin b => if b = 0 then .nan else if 0 < b then .ninf else .inf
  | .fin a, .ninf => if a = 0 then .nan else if 0 < a then .ninf else .inf
  | .inf, .inf => .inf
  | .inf, .ninf => .ninf
  | .ninf, .inf => .ninf
  | .ninf, .ninf => .inf

/-- Double division: finite by nonzero is exact; `x/0` gives a signed
infinity (or `NaN` for `0/0`). -/
def nDiv : NumV → NumV → NumV
  | .fin a, .fin b =>
    if b = 0 then (if a = 0 then .nan else if 0 < a then .inf else .ninf)
    else .fin (a / b)
  | .nan, _ => .nan
  | _, .nan => .nan
  | .fin _, .inf => .fin 0
  | .fin _, .ninf => .fin 0
  | .inf, .fin b => if 0 ≤ b then .inf else .ninf
  | .ninf, .fin b => if 0 ≤ b then .ninf else .inf
  | _, _ => .nan

/-- JS `%` (remainder with the dividend's sign): `a - b·trunc(a/b)`. -/
def nMod : NumV → NumV → NumV
  | .fin a, .fin b =>
    if b = 0 then .nan else .fin (a - b * ((a / b).floor + if (a / b) < 0 ∧ (a / b).floor < a / b then 1 else 0))
  | _, _ => .nan

/-- `Math.pow` on the exactly-representable fragment: integral
exponents.  (`0 ^ n` for negative `n` is `Infinity`; fractional
exponents are outside the modelled fragment and map to `NaN` — no
verified program uses them.) -/
def nPow : NumV → NumV → NumV
  | .fin a, .fin b =>
    if b.den = 1 then
      if 0 ≤ b.num then .fin (a ^ b.num.toNat)
      else if a = 0 then .inf
      else .fin (1 / a ^ (-b.num).toNat)
    else .nan
  | _, _ => .nan

def nLt : NumV → NumV → Bool
  | .fin a, .fin b => a < b
  | .nan, _ => false
  | _, .nan => false
  | .inf, _ => false
  | .ninf, .ninf => false
  | .ninf, _ => true
  | .fin _, .inf => true
  | .fin _, .ninf => false

def nLe : NumV → NumV → Bool
  | .fin a, .fin b => a ≤ b
  | .nan, _ => false
  | _, .nan => false
  | .ninf, _ => true
  | _, .inf => true
  | .inf, _ => false
  | .fin _, .ninf => false

def nEq : NumV → NumV → Bool
  | .fin a, .fin b => a = b
  | .inf, .inf => true
  | .ninf, .ninf => true
  | _, _ => false

/-- `(a, b) => a + b`: string concatenation when both operands are
strings, numeric addition on the numeric fragment; other coercions
(string+object, …) are outside the modelled fragment. -/
def jsAdd (a b : Value) : Except Err Value :=
  match a, b with
  | .str x, .str y => .ok (.str (x ++ y))
  | _, _ =>
    match toNumV a, toNumV b with
    | some x, some y => .ok (.num (nAdd x y))
    | _, _ => .error .hostNotModelled

def numBinop (f : NumV → NumV → NumV) (a b : Value) : Except Err Value :=
  match toNumV a, toNumV b with
  | some x, some y => .ok (.num (f x y))
  | _, _ => .error .hostNotModelled

def cmpBinop (f : NumV → NumV → Bool) (a b : Value) : Except Err Value :=
  match a, b with
  | .str _, .str _ => .error .hostNotModelled
  | _, _ =>
    match toNumV a, toNumV b with
    | some x, some y => .ok (.bool (f x y))
    | _, _ => .error .hostNotModelled

/-- Loose equality `==` on the modelled fragment: `null`/`undefined`
equal each other and nothing else; strings compare as strings; numbers
and booleans compare numerically (`NaN` equal to nothing). -/
def jsEq (a b : Value) : Except Err Value :=
  match a, b with
  | .undefV, x => .ok (.bool (x matches .undefV ∨ x matches .nullv))
  | .nullv, x => .ok (.bool (x matches .undefV ∨ x matches .nullv))
  | x, .undefV => .ok (.bool (x matches .undefV ∨ x matches .nullv))
  | x, .nullv => .ok (.bool (x matches .undefV ∨ x matches .nullv))
  | .str x, .str y => .ok (.bool (x = y))
  | _, _ =>
    match toNumV a, toNumV b with
    | some x, some y => .ok (.bool (nEq x y))
    | _, _ => .error .hostNotModelled

/-- `(start, end) => Array.apply(null, Array(end - start)).map((_, i) => i + start)`:
`Array(n)` demands a non-negative integral length (else `RangeError`). -/
def jsRange (a b : Value) : Except Err Value :=
  match toNumV a, toNumV b with
  | some (.fin x), some (.fin y) =>
    let d := y - x
    if d.den = 1 ∧ 0 ≤ d.num then
      .ok (.list ((List.range d.num.toNat).map (fun i => .num (.fin (x + i)))))
    else .error .rangeError
  | some _, some _ => .error .rangeError
  | _, _ => .error .hostNotModelled

/-! ### Signature guards

The source's handler keys and `extractArgs` guards are strings or
regexes matched against the node's `type` string (the signature, a
space-join of the component list kept here).  Every component is
either the operand marker `"E"`/`"_"` or an operator token's text; the
only token texts containing a space are string literals, which always
contain a `"` character, so matching the joined string against the
source's space-separated patterns is equivalent to the component-list
predicates below (each of which enforces the "no space" character
classes of the originals). -/

def isOperandComp (s : String) : Bool := s = "E" ∨ s = "_"

/-- The operator character class of the simple-operator handler key:
`[!@#$%^&*+\/?<>=.-]`. -/
def isSimpleOpChar (c : Char) : Bool :=
  c = '!' ∨ c = '@' ∨ c = '#' ∨ c = '$' ∨ c = '%' ∨ c = '^' ∨ c = '&' ∨
  c = '*' ∨ c = '+' ∨ c = '/' ∨ c = '?' ∨ c = '<' ∨ c = '>' ∨ c = '=' ∨
  c = '.' ∨ c = '-'

/-- `/^[E_] ([!@#$%^&*+\/?<>=.-]+|and|or|not) E$/`. -/
def simpleOpMatch : List String → Bool
  | [a, op, "E"] =>
    isOperandComp a ∧
      ((op ≠ "" ∧ op.toList.all isSimpleOpChar) ∨ op = "and" ∨ op = "or" ∨ op = "not")
  | _ => false

/-- `/[,;\n]/` (unanchored: the joined signature contains one of the
separator characters). -/
def seqMatch (sig : List String) : Bool :=
  sig.any (fun s => s.toList.any (fun c => c = ',' ∨ c = ';' ∨ c = '\n'))

/-- Tail of `/^_ if E then E( elif E then E)*( else E)? end _$/`. -/
def ifTailMatch : List String → Bool
  | ["end", "_"] => true
  | ["else", "E", "end", "_"] => true
  | "elif" :: "E" :: "then" :: "E" :: rest => ifTailMatch rest
  | _ => false

def ifMatch : List String → Bool
  | "_" :: "if" :: "E" :: "then" :: "E" :: rest => ifTailMatch rest
  | _ => false

/-- Tail of `/^[E_]( [;,\n] [E_])+$/` (the `getList` guard). -/
def getListTailMatch : List String → Bool
  | [] => true
  | sep :: opd :: rest =>
    (sep = ";" ∨ sep = "," ∨ sep = "\n") ∧ isOperandComp opd ∧ getListTailMatch rest
  | _ => false

def getListMatch : List String → Bool
  | a :: sep :: opd :: rest =>
    isOperandComp a ∧ getListTailMatch (sep :: opd :: rest)
  | _ => false

/-- `/^[E_] [^ ]+ [E_]$/` (binary-operator shape in `normalizeCall`). -/
def binOpMatch : List String → Bool
  | [a, op, b] =>
    isOperandComp a ∧ isOperandComp b ∧ op ≠ "" ∧ op.toList.all (· ≠ ' ')
  | _ => false

/-- `/^E \( [E_] \) _$/` (apply shape in `normalizeCall`). -/
def applyShapeMatch : List String → Bool
  | ["E", "(", x, ")", "_"] => isOperandComp x
  | _ => false

/-- `node.type` as seen by `extractArgs`: a bare token's kind string,
or a node's signature components. -/
def Ast.typeComps : Ast → List String
  | .tok t => [kindStr t.type]
  | .node sig _ _ _ _ => sig

/-- `node.args || []`. -/
def Ast.argsOf : Ast → List Ast
  | .tok _ => []
  | .node _ args _ _ _ => args

/-- `node.ops` (empty for a bare token, whose `ops` is undefined — the
source never reads it there). -/
def Ast.opsOf : Ast → List Token
  | .tok _ => []
  | .node _ _ ops _ _ => ops

/-- `getList(node)`: split on the separator guard, else the singleton. -/
def getListAst (a : Ast) : List Ast :=
  if getListMatch a.typeComps then a.argsOf else [a]

/-- `unparenthesize(node)`.  (A `"_ ( E ) _"` node built by the
finalizer always has exactly one argument; on a malformed node the
source would read `undefined`, a state no run reaches.) -/
def unparenthesizeAst (a : Ast) : Ast :=
  if a.typeComps = ["_", "(", "E", ")", "_"] then
    match a.argsOf with
    | x :: _ => x
    | [] => a
  else a

/-- `normalizeCall(node)`: `ok (some (callee, args))` on the two call
shapes, `ok none` when neither guard matches (the source returns
`null`).  On the apply shape the argument slot may be empty
(`E ( _ ) _`, e.g. the left side of `f() = …` in a `let`): the source
then calls `getList(undefined)`, which throws a `TypeError`. -/
def normalizeCall (a : Ast) : Except Err (Option (Ast × List Ast)) :=
  if binOpMatch a.typeComps then
    match a.opsOf.head? with
    | some op => .ok (some (.tok op, a.argsOf))
    | none => .error .typeError
  else if applyShapeMatch a.typeComps then
    match a.argsOf with
    | f :: argNode :: _ => .ok (some (f, getListAst argNode))
    | _ => .error .typeError
  else .ok none

/-- `normalizeAssignment(node)`: target, function parameters (if a
function declaration), right-hand side.  The `extractArgs` call is
strict: a declaration that is not an `E = E` node throws. -/
def normalizeAssignment (a : Ast) : Except Err (Ast × Option (List Ast) × Ast) :=
  if a.typeComps = ["E", "=", "E"] then
    match a.argsOf with
    | [l, r] => do
      match ← normalizeCall l with
      | some (f, fargs) => .ok (f, some fargs, r)
      | none => .ok (l, none, r)
    | _ => .error .typeError
  else .error .expectedGuard

/-! ### Interpreter -/

/-- Leaf handlers (checked last in the source's reversed handler list;
no earlier handler key matches a bare kind string). -/
def stripQuotes (s : String) : String :=
  String.mk ((s.toList.drop 1).dropLast)

def digitsVal (ds : List Char) : Nat :=
  ds.foldl (fun a c => 10 * a + (c.toNat - 48)) 0

/-- `parseFloat` on a `number` token's text (always of the form
`\d+(\.\d+)?([eE][+-]?\d+)?`), exactly. -/
def parseNumber (s : String) : Rat :=
  let cs := s.toList
  let ip := cs.takeWhile isDigitChar
  let r1 := cs.drop ip.length
  let fp :=
    match r1 with
    | '.' :: rest => rest.takeWhile isDigitChar
    | _ => []
  let r2 := r1.drop (if fp.length = 0 then 0 else fp.length + 1)
  let ex : Int :=
    match r2 with
    | c :: rest =>
      if c = 'e' ∨ c = 'E' then
        match rest with
        | '-' :: ds => -(digitsVal (ds.takeWhile isDigitChar) : Int)
        | '+' :: ds => (digitsVal (ds.takeWhile isDigitChar) : Int)
        | ds => (digitsVal (ds.takeWhile isDigitChar) : Int)
      else 0
    | [] => 0
  ((digitsVal ip : Rat) + (digitsVal fp : Rat) / (10 : Rat) ^ fp.length) * (10 : Rat) ^ ex

def evalLeaf (t : Token) (env : Env) : Except Err Value :=
  match t.type with
  | .wordKind => resolve env t.text
  | .infixKind => resolve env t.text
  | .prefixKind => resolve env ("prefix:" ++ t.text)
  | .numberKind => .ok (.num (.fin (parseNumber t.text)))
  | .stringKind => .ok (.str (stripQuotes t.text))
  | _ => .error .synUnknownNode

/-- `variableBinder`'s target validation and binding key:
`word`/`infix` bind under the text, `prefix` under `"prefix:" + text`;
anything else is `SyntaxError("Invalid variable declaration.")`. -/
def binderKey (a : Ast) : Except Err String :=
  match a with
  | .tok t =>
    match t.type with
    | .wordKind => .ok t.text
    | .infixKind => .ok t.text
    | .prefixKind => .ok ("prefix:" ++ t.text)
    | _ => .error .synInvalidBinding
  | _ => .error .synInvalidBinding

/-- Parameter binding in `buildFunction`: validate each declaration
and bind it to the next argument (`undefined` once exhausted). -/
def bindParams : List Ast → List Value → List (String × Value) →
    Except Err (List (String × Value))
  | [], _, bs => .ok bs
  | p :: ps, args, bs => do
    let key ← binderKey p
    bindParams ps args.tail ((key, args.headD .undefV) :: bs)

/-- The root environment bindings (`Teacup.rootEnv`, including the
`log` sink the display code adds to it). -/
def rootBindings : List (String × Value) :=
  [("true", .bool true), ("false", .bool false), ("null", .nullv),
   ("+", .builtin "+" false), ("-", .builtin "-" false),
   ("prefix:-", .builtin "prefix:-" false),
   ("*", .builtin "*" false), ("/", .builtin "/" false),
   ("%", .builtin "%" false), ("^", .builtin "^" false),
   ("<", .builtin "<" false), (">", .builtin ">" false),
   ("<=", .builtin "<=" false), (">=", .builtin ">=" false),
   ("==", .builtin "==" false), ("..", .builtin ".." false),
   ("prefix:not", .builtin "prefix:not" false),
   ("and", .builtin "and" true), ("or", .builtin "or" true),
   ("Math", .hostObj "Math"), ("log", .builtin "log" false)]

/-- Strict application of a root-environment host function.  Missing
arguments are `undefined`; extra arguments are ignored (as in JS). -/
def applyBuiltin (name : String) (args : List Value) : Except Err Value :=
  let a := args.getD 0 .undefV
  let b := args.getD 1 .undefV
  match name with
  | "+" => jsAdd a b
  | "-" => numBinop nSub a b
  | "prefix:-" =>
    match toNumV a with
    | some x => .ok (.num (nNeg x))
    | none => .error .hostNotModelled
  | "*" => numBinop nMul a b
  | "/" => numBinop nDiv a b
  | "%" => numBinop nMod a b
  | "^" => numBinop nPow a b
  | "<" => cmpBinop nLt a b
  | ">" => cmpBinop (fun x y => nLt y x) a b
  | "<=" => cmpBinop nLe a b
  | ">=" => cmpBinop (fun x y => nLe y x) a b
  | "==" => jsEq a b
  | ".." => jsRange a b
  | "prefix:not" => .ok (.bool (¬ truthy a))
  | "and" => .error .typeError   -- lazy; applied strictly would call a number
  | "or" => .error .typeError
  | _ => .error .hostNotModelled -- `log` writes to the DOM

/-- `obj[field]` (with `getField`'s method binding, irrelevant here
since no modelled property holds a function).  Property access on
`undefined`/`null` throws; list/string indexing and `length` are
modelled, other property reads yield `undefined`. -/
def getField (obj field : Value) : Except Err Value :=
  match obj with
  | .undefV => .error .typeError
  | .nullv => .error .typeError
  | .list xs =>
    match field with
    | .num (.fin q) =>
      if q.den = 1 ∧ 0 ≤ q.num ∧ q.num < xs.length then
        .ok (xs.getD q.num.toNat .undefV)
      else .ok .undefV
    | .str "length" => .ok (.num (.fin xs.length))
    | _ => .ok .undefV
  | .str s =>
    match field with
    | .num (.fin q) =>
      if q.den = 1 ∧ 0 ≤ q.num ∧ q.num < s.length then
        .ok (.str (String.mk [s.toList.getD q.num.toNat ' ']))
      else .ok .undefV
    | .str "length" => .ok (.num (.fin s.length))
    | _ => .ok .undefV
  | .hostObj _ => .error .hostNotModelled
  | _ => .ok .undefV

/-- `for…of` iterability: arrays iterate their elements, strings their
characters; other values throw. -/
def iterElems : Value → Except Err (List Value)
  | .list xs => .ok xs
  | .str s => .ok (s.toList.map (fun c => .str (String.mk [c])))
  | _ => .error .typeError

/-- The evaluation function these helpers are parameterised by (the
interpreter's `this.eval` at the enclosing fuel level). -/
abbrev EvalFn := Ast → Env → Except Err Value

/-- Evaluate a list of expressions left to right. -/
def evalListWith (ev : EvalFn) : List Ast → Env → Except Err (List Value)
  | [], _ => .ok []
  | x :: xs, env => do
    let v ← ev x env
    let vs ← evalListWith ev xs env
    .ok (v :: vs)

/-- Strict function application (`fn.apply(interpreter, values)`). -/
def applyFn (ev : EvalFn) (fn : Value) (args : List Value) : Except Err Value :=
  match fn with
  | .closure params body cenv => do
    let bs ← bindParams params args []
    ev body (.frame bs cenv)
  | .builtin name _ => applyBuiltin name args
  | _ => .error .typeError

/-- Lazy application: the callee receives each argument as a thunk
`() => eval(x, env)`.  The two lazy builtins are `and`
(`(a, b) => a() && b()`) and `or` (`(a, b) => a() || b()`): the
second thunk is forced only when the first value does not decide the
result; a missing thunk forced is a `TypeError`. -/
def lazyApply (ev : EvalFn) (name : String) (argAsts : List Ast) (env : Env) :
    Except Err Value :=
  match name, argAsts with
  | "and", a :: rest => do
    let va ← ev a env
    if truthy va then
      match rest with
      | b :: _ => ev b env
      | [] => .error .typeError
    else .ok va
  | "or", a :: rest => do
    let va ← ev a env
    if truthy va then .ok va
    else
      match rest with
      | b :: _ => ev b env
      | [] => .error .typeError
  | _, _ => .error .typeError

/-- `runCall`: normalize, evaluate the callee, then apply lazily or
strictly.  Only `builtin`s carry the `lazy` marker. -/
def runCallWith (ev : EvalFn) (a : Ast) (env : Env) : Except Err Value := do
  match ← normalizeCall a with
  | none => .error .typeError   -- `res[0]` of null
  | some (calleeAst, argAsts) =>
    let fn ← ev calleeAst env
    match fn with
    | .builtin name true => lazyApply ev name argAsts env
    | _ => do
      let vs ← evalListWith ev argAsts env
      applyFn ev fn vs

/-- The `if` handler's queue loop: pairs of condition/branch, with an
optional trailing else expression; when every condition is falsy and
there is no else, the loop falls through and returns `undefined`. -/
def evalIfWith (ev : EvalFn) : List Ast → Env → Except Err Value
  | [], _ => .ok .undefV
  | [x], env => ev x env
  | c :: b :: rest, env => do
    let vc ← ev c env
    if truthy vc then ev b env else evalIfWith ev rest env

/-- The sequence handler: evaluate all arguments in order, return the
last value (`undefined` for an empty argument list). -/
def evalSeqWith (ev : EvalFn) : List Ast → Env → Value → Except Err Value
  | [], _, last => .ok last
  | x :: xs, env, _ => do
    let v ← ev x env
    evalSeqWith ev xs env v

/-- The declarations of a `let`, in order: a function declaration is
stored as syntax (its closure sees the whole frame), a value
declaration is evaluated **in the parent environment** (`this.eval(decl[2], env)`);
the binder is validated after the value is computed. -/
def letEntries (ev : EvalFn) :
    List (Ast × Option (List Ast) × Ast) → Env → List (String × REntry) →
    Except Err (List (String × REntry))
  | [], _, acc => .ok acc
  | (target, fargs?, expr) :: rest, env, acc => do
    let entry ←
      match fargs? with
      | some ps => pure (REntry.fnDecl ps expr)
      | none => do
        let v ← ev expr env
        pure (REntry.val v)
    let key ← binderKey target
    letEntries ev rest env (acc ++ [(key, entry)])

def normalizeAll : List Ast → Except Err (List (Ast × Option (List Ast) × Ast))
  | [] => .ok []
  | d :: ds => do
    let x ← normalizeAssignment d
    let xs ← normalizeAll ds
    .ok (x :: xs)

def evalLetWith (ev : EvalFn) (rawDecls body : Ast) (env : Env) : Except Err Value := do
  let decls ← normalizeAll (getListAst rawDecls)
  let entries ← letEntries ev decls env []
  ev body (.recFrame entries env)

/-- `forHandler`: iterate, binding the loop variable in a fresh child
environment per element; the condition (if any) and the body are
evaluated in that loop environment. -/
def forIter (ev : EvalFn) (v : Ast) (cond : Option Ast) (body : Ast) (env : Env) :
    List Value → Except Err (List Value)
  | [] => .ok []
  | x :: xs => do
    let key ← binderKey v
    let loopEnv := Env.frame [(key, x)] env
    let keep ←
      match cond with
      | none => pure true
      | some c => do
        let vc ← ev c loopEnv
        pure (truthy vc)
    if keep then do
      let r ← ev body loopEnv
      let rest ← forIter ev v cond body env xs
      .ok (r :: rest)
    else forIter ev v cond body env xs

/-- Fold of the indexing handler: `getList(index).reduce((res, x) =>
getField(res, this.eval(x, env)), this.eval(obj))`. -/
def foldIndex (ev : EvalFn) : List Ast → Env → Value → Except Err Value
  | [], _, acc => .ok acc
  | x :: xs, env, acc => do
    let i ← ev x env
    let acc' ← getField acc i
    foldIndex ev xs env acc'

/-- Handler bodies, one per entry of the source's handler table (each
JS handler is a function of `(node, env, …args)`; here each takes the
argument list directly).  An argument-count mismatch with the
signature cannot arise for finalizer-built nodes; the JS code would
read `undefined` there (modelled as `typeError`). -/
def hForWhen (ev : EvalFn) (args : List Ast) (env : Env) : Except Err Value :=
  match args with
  | [v, lst, cond, body] => do
    let xs ← iterElems (← ev lst env)
    Value.list <$> forIter ev v (some cond) body env xs
  | _ => .error .typeError

def hForPlain (ev : EvalFn) (args : List Ast) (env : Env) : Except Err Value :=
  match args with
  | [v, lst, body] => do
    let xs ← iterElems (← ev lst env)
    Value.list <$> forIter ev v none body env xs
  | _ => .error .typeError

def hLet (ev : EvalFn) (args : List Ast) (env : Env) : Except Err Value :=
  match args with
  | [rawDecls, body] => evalLetWith ev rawDecls body env
  | _ => .error .typeError

def hLambda (args : List Ast) (env : Env) : Except Err Value :=
  match args with
  | [decl, body] => .ok (.closure (getListAst (unparenthesizeAst decl)) body env)
  | _ => .error .typeError

def hDot (ev : EvalFn) (args : List Ast) (env : Env) : Except Err Value :=
  match args with
  | [obj, field] => do
    let x ← ev obj env
    let f ←
      match field with
      | .tok t => if t.type = .wordKind then pure (Value.str t.text) else ev field env
      | _ => ev field env
    getField x f
  | _ => .error .typeError

def hIndex (ev : EvalFn) (args : List Ast) (env : Env) : Except Err Value :=
  match args with
  | [obj, index] => do
    let base ← ev obj Env.undefEnv   -- `this.eval(obj)`: no env passed!
    foldIndex ev (getListAst index) env base
  | _ => .error .typeError

def hListLit (ev : EvalFn) (args : List Ast) (env : Env) : Except Err Value :=
  match args with
  | [x] => Value.list <$> evalListWith ev (getListAst x) env
  | _ => .error .typeError

def hCallZero (ev : EvalFn) (args : List Ast) (env : Env) : Except Err Value :=
  match args with
  | [f] => do
    let fv ← ev f env
    applyFn ev fv []
  | _ => .error .typeError

def hInner (ev : EvalFn) (args : List Ast) (env : Env) : Except Err Value :=
  match args with
  | [x] => ev x env
  | _ => .error .typeError

/-- One dispatch step of `Interpreter.prototype.eval`: the handlers in
reverse registration order (the source iterates the reversed list).  A
bare token only ever matches the four leaf handlers at the end of the
list, handled by `evalLeaf`. -/
def dispatch (ev : EvalFn) (a : Ast) (env : Env) : Except Err Value :=
  match a with
  | .tok t => evalLeaf t env
  | .node sig args _ _ _ =>
    if sig = ["_", "for", "E", "in", "E", "when", "E", "do", "E", "end", "_"] then
      hForWhen ev args env
    else if sig = ["_", "for", "E", "in", "E", "do", "E", "end", "_"] then
      hForPlain ev args env
    else if sig = ["_", "let", "E", "in", "E", "end", "_"] then
      hLet ev args env
    else if sig = ["E", "->", "E"] then
      hLambda args env
    else if seqMatch sig then
      evalSeqWith ev args env .undefV
    else if ifMatch sig then
      evalIfWith ev args env
    else if sig = ["E", ".", "E"] then
      hDot ev args env
    else if sig = ["E", "[", "E", "]", "_"] then
      hIndex ev args env
    else if sig = ["_", "[", "_", "]", "_"] then
      .ok (.list [])
    else if sig = ["_", "[", "E", "]", "_"] then
      hListLit ev args env
    else if sig = ["E", "(", "_", ")", "_"] then
      hCallZero ev args env
    else if sig = ["E", "(", "E", ")", "_"] then
      runCallWith ev a env
    else if sig = ["_", "begin", "E", "end", "_"] then
      hInner ev args env
    else if sig = ["_", "(", "E", ")", "_"] then
      hInner ev args env
    else if simpleOpMatch sig then
      runCallWith ev a env
    else .error .synUnknownNode

/-- The interpreter's `eval`, with fuel for the host call stack. -/
def eval : Nat → Ast → Env → Except Err Value
  | 0, _, _ => .error .fuelExhausted
  | fuel + 1, a, env => dispatch (eval fuel) a env

/-- The full pipeline `teacup(source)` at a given interpreter fuel:
lexer, prefix tagger, parser, interpreter over the root environment.
An empty program parses to `null`, on which the interpreter's
`extractArgs` immediately throws (`null.type`). -/
def teacupAt (fuel : Nat) (source : String) : Except Err Value := do
  match ← parseTokens (tagPrefixOperators (teacupLex source)) with
  | none => .error .typeError
  | some a => eval fuel a (.frame rootBindings .nil)

/-- `teacup(source)` with fuel ample for every program considered
here. -/
def teacup (source : String) : Except Err Value :=
  teacupAt 1000 source

/-! ## Helper lemmas -/

set_option maxRecDepth 10000

/-- An infix token (text `s`) as it would come out of the lexer;
source positions are irrelevant to parsing decisions. -/
def infixTok (s : String) : Token := ⟨.infixKind, s, 0, 0⟩

/-- The left-nested parse of `t1 ⊙ t2 ⊙ t3`. -/
def leftNest (t1 t2 t3 op : Token) : Ast :=
  .node ["E", op.text, "E"]
    [.node ["E", op.text, "E"] [.tok t1, .tok t2] [op] t1.start t2.stop, .tok t3]
    [op] t1.start t3.stop

/-- The right-nested parse of `t1 ⊙ t2 ⊙ t3`. -/
def rightNest (t1 t2 t3 op : Token) : Ast :=
  .node ["E", op.text, "E"]
    [.tok t1, .node ["E", op.text, "E"] [.tok t2, .tok t3] [op] t2.start t3.stop]
    [op] t1.start t3.stop

/-- Unfolding of `parseTokens` into its loop. -/
theorem parseTokens_eq (ts : List Token) :
    parseTokens ts = parseLoop (4 * ts.length + 8) [] [.opd none, .oper none] none
      none ts.head? ts.tail := rfl

/-- Parsing a single token: the trivial handle `[null, t, null]` is
finalized and collapsed to the bare token, independently of the
token's priorities (only `order` against an absent neighbour runs). -/
theorem parseLoop_single (f : Nat) (t : Token) :
    parseLoop (f+3) [] [.opd none, .oper none] none none (some t) []
      = .ok (some (.tok t)) := by
  simp [parseLoop, order, finalize, lastOper, Bind.bind, Except.bind]

theorem parseTokens_single (t : Token) : parseTokens [t] = .ok (some (.tok t)) := by
  rw [parseTokens_eq]
  rw [show 4 * ([t].length) + 8 = 9 + 3 by simp]
  exact parseLoop_single 9 t

/-- A three-operand run of one operator whose right priority is below
its left priority (and both below the atom priority) closes the first
handle before opening the second: left-nested result. -/
theorem parseLoop_leftAssoc (f : Nat) (t1 t2 t3 op : Token) (pl pr : Int)
    (h1 : getPrio t1 = .ok (xassoc 20005))
    (h2 : getPrio t2 = .ok (xassoc 20005))
    (h3 : getPrio t3 = .ok (xassoc 20005))
    (hop : getPrio op = .ok ⟨pl, pr⟩)
    (hr : pr < 20005) (hl : pl < 20005) (hlr : pr < pl) :
    parseLoop (f+11) [] [.opd none, .oper none] none none (some t1) [op, t2, op, t3]
      = .ok (some (leftNest t1 t2 t3 op)) := by
  have s1 : Int.sign (pr - 20005) = -1 := Int.sign_eq_neg_one_of_neg (by omega)
  have s2 : Int.sign (20005 - pl) = 1 := Int.sign_eq_one_of_pos (by omega)
  have s3 : Int.sign (pr - pl) = -1 := Int.sign_eq_neg_one_of_neg (by omega)
  simp [parseLoop, order, finalize, lastOper, h1, h2, h3, hop, s1, s2, s3,
    xassoc, leftNest, Ast.start, Ast.stop, Bind.bind, Except.bind]

theorem parse3_left (t1 t2 t3 op : Token) (pl pr : Int)
    (h1 : getPrio t1 = .ok (xassoc 20005))
    (h2 : getPrio t2 = .ok (xassoc 20005))
    (h3 : getPrio t3 = .ok (xassoc 20005))
    (hop : getPrio op = .ok ⟨pl, pr⟩)
    (hr : pr < 20005) (hl : pl < 20005) (hlr : pr < pl) :
    parseTokens [t1, op, t2, op, t3] = .ok (some (leftNest t1 t2 t3 op)) := by
  rw [parseTokens_eq]
  rw [show 4 * ([t1, op, t2, op, t3].length) + 8 = 17 + 11 by simp]
  exact parseLoop_leftAssoc 17 t1 t2 t3 op pl pr h1 h2 h3 hop hr hl hlr

/-- Dually, right priority above left priority opens a new handle:
right-nested result. -/
theorem parseLoop_rightAssoc (f : Nat) (t1 t2 t3 op : Token) (pl pr : Int)
    (h1 : getPrio t1 = .ok (xassoc 20005))
    (h2 : getPrio t2 = .ok (xassoc 20005))
    (h3 : getPrio t3 = .ok (xassoc 20005))
    (hop : getPrio op = .ok ⟨pl, pr⟩)
    (hr : pr < 20005) (hl : pl < 20005) (hlr : pl < pr) :
    parseLoop (f+11) [] [.opd none, .oper none] none none (some t1) [op, t2, op, t3]
      = .ok (some (rightNest t1 t2 t3 op)) := by
  have s1 : Int.sign (pr - 20005) = -1 := Int.sign_eq_neg_one_of_neg (by omega)
  have s2 : Int.sign (20005 - pl) = 1 := Int.sign_eq_one_of_pos (by omega)
  have s3 : Int.sign (pr - pl) = 1 := Int.sign_eq_one_of_pos (by omega)
  simp [parseLoop, order, finalize, lastOper, h1, h2, h3, hop, s1, s2, s3,
    xassoc, rightNest, Ast.start, Ast.stop, Bind.bind, Except.bind]

theorem parse3_right (t1 t2 t3 op : Token) (pl pr : Int)
    (h1 : getPrio t1 = .ok (xassoc 20005))
    (h2 : getPrio t2 = .ok (xassoc 20005))
    (h3 : getPrio t3 = .ok (xassoc 20005))
    (hop : getPrio op = .ok ⟨pl, pr⟩)
    (hr : pr < 20005) (hl : pl < 20005) (hlr : pl < pr) :
    parseTokens [t1, op, t2, op, t3] = .ok (some (rightNest t1 t2 t3 op)) := by
  rw [parseTokens_eq]
  rw [show 4 * ([t1, op, t2, op, t3].length) + 8 = 17 + 11 by simp]
  exact parseLoop_rightAssoc 17 t1 t2 t3 op pl pr h1 h2 h3 hop hr hl hlr

/-- Rerunning `tagLoop` over its own output changes nothing, for any
pair of previous-kind states such that the second pass's state forces
the first pass's state whenever it is one of the states the tagger
acts on. -/
theorem tagLoop_idem (ts : List Token) : ∀ p q : PrevT,
    (q = .start → p = .start) →
    (q = .kind .infixKind → p = .kind .infixKind) →
    (q = .kind .openKind → p = .kind .openKind) →
    tagLoop q (tagLoop p ts) = tagLoop p ts := by
  induction ts with
  | nil => intro p q _ _ _; simp [tagLoop]
  | cons t ts ih =>
    intro p q hs hi ho
    by_cases h1 : p = .start ∧ t.type = .openKind
    · rw [show tagLoop p (t :: ts) = t :: tagLoop (.kind .openKind) ts by
        rw [tagLoop]; simp [h1]]
      by_cases hq : q = .start
      · rw [show tagLoop q (t :: tagLoop (.kind .openKind) ts)
            = t :: tagLoop (.kind .openKind) (tagLoop (.kind .openKind) ts) by
          rw [tagLoop]; simp [hq, h1.2]]
        rw [ih _ _ (by simp) (by simp) (by simp)]
      · rw [show tagLoop q (t :: tagLoop (.kind .openKind) ts)
            = t :: tagLoop (.kind t.type) (tagLoop (.kind .openKind) ts) by
          rw [tagLoop]
          have : ¬ (t.type = .infixKind ∧ (q = .kind .infixKind ∨ q = .kind .openKind)) := by
            rintro ⟨hti, _⟩; rw [h1.2] at hti; cases hti
          simp [hq, this]]
        rw [h1.2, ih _ _ (by simp) (by simp) (by simp)]
    · by_cases h2 : t.type = .infixKind ∧ (p = .kind .infixKind ∨ p = .kind .openKind)
      · rw [show tagLoop p (t :: ts)
            = { t with type := .prefixKind } :: tagLoop (.kind .infixKind) ts by
          rw [tagLoop]; simp [h1, h2]]
        rw [show tagLoop q ({ t with type := .prefixKind } :: tagLoop (.kind .infixKind) ts)
            = { t with type := .prefixKind } ::
                tagLoop (.kind .prefixKind) (tagLoop (.kind .infixKind) ts) by
          rw [tagLoop]; simp]
        rw [ih _ _ (by simp) (by simp) (by simp)]
      · rw [show tagLoop p (t :: ts) = t :: tagLoop (.kind t.type) ts by
          rw [tagLoop]; simp [h1, h2]]
        rw [show tagLoop q (t :: tagLoop (.kind t.type) ts)
            = t :: tagLoop (.kind t.type) (tagLoop (.kind t.type) ts) by
          rw [tagLoop]
          have hq1 : ¬ (q = .start ∧ t.type = .openKind) := by
            rintro ⟨hqs, hto⟩; exact h1 ⟨hs hqs, hto⟩
          have hq2 : ¬ (t.type = .infixKind ∧ (q = .kind .infixKind ∨ q = .kind .openKind)) := by
            rintro ⟨hti, hqio⟩
            apply h2
            refine ⟨hti, ?_⟩
            rcases hqio with h | h
            · exact Or.inl (hi h)
            · exact Or.inr (ho h)
          simp [hq1, hq2]]
        rw [ih _ _ (by simp) (by simp) (by simp)]

/-- Every token the lexer emits has passed the filter: nonempty text
and not a comment. -/
theorem lexLoop_filtered (fuel : Nat) : ∀ (prev : Option Char) (rest : List Char)
    (pos : Nat) (t : Token), t ∈ lexLoop fuel prev rest pos →
    t.text ≠ "" ∧ t.type ≠ .commentKind := by
  induction fuel with
  | zero => intro prev rest pos t ht; simp [lexLoop] at ht
  | succ fuel ih =>
    intro prev rest pos t ht
    cases rest with
    | nil => rw [lexLoop] at ht; simp at ht
    | cons c rtail =>
      rw [lexLoop] at ht
      cases hm : tryTokenAt prev (c :: rtail) with
      | none =>
        rw [hm] at ht
        exact ih _ _ _ _ ht
      | some kl =>
        obtain ⟨kind, len⟩ := kl
        rw [hm] at ht
        simp only at ht
        by_cases hc : kind = .commentKind
        · rw [if_pos hc] at ht
          exact ih _ _ _ _ ht
        · rw [if_neg hc] at ht
          rcases List.mem_cons.mp ht with h | h
          · subst h
            refine ⟨?_, hc⟩
            show String.mk ((c :: rtail).take (max len 1)) ≠ ""
            have : max len 1 = (max len 1 - 1) + 1 := by omega
            rw [this, List.take_succ_cons]
            intro hcontra
            exact List.cons_ne_nil _ _ (congrArg String.data hcontra)
          · exact ih _ _ _ _ h

/-! ## The claims -/

/-- **C1** — counterexample.  The claim says a leading `infix` token
(`prev_kind = start`) is reclassified as `prefix` and that `-3 + 4`
evaluates to `1`.  In the source, the retagging condition only accepts
`prevType ∈ {"infix", "open"}` — the `"start"` sentinel is handled
solely by the leading-`open` skip — so the leading `-` of `-3 + 4`
stays `infix`; the program parses as a binary minus applied to the
single operand `3` (signature `_ - E`), `3 - undefined` is `NaN`, and
the program evaluates to `NaN`, not `1`. -/
theorem C1_counterexample :
    (tagPrefixOperators (teacupLex "-3 + 4")).map Token.type
      = [.infixKind, .numberKind, .infixKind, .numberKind]
    ∧ teacup "-3 + 4" = .ok (.num .nan)
    ∧ Value.num .nan ≠ Value.num (.fin 1) := by
  refine ⟨rfl, rfl, ?_⟩
  intro h
  cases Value.num.inj h

/-- **C1** — as amended: a first token of kind `infix` is left
unchanged by the tagger (the `start` sentinel exempts only a leading
`open` token), `-3 + 4` therefore evaluates to `NaN`, while the
parenthesized `(- 3) + 4` — whose `-` follows an `open` token and is
retagged — evaluates to `1` via `prefix:-`. -/
theorem C1_corrected (t : Token) (ts : List Token) (h : t.type = .infixKind) :
    (tagPrefixOperators (t :: ts)).head? = some t
    ∧ teacup "-3 + 4" = .ok (.num .nan)
    ∧ teacup "(- 3) + 4" = .ok (.num (.fin 1)) := by
  refine ⟨?_, rfl, by with_unfolding_all rfl⟩
  rw [tagPrefixOperators, tagLoop]
  simp [h]

/-- **C1** — witness for `C1_corrected` at the leading `-` of
`-3 + 4`. -/
theorem C1_witness :
    (tagPrefixOperators [⟨.infixKind, "-", 0, 1⟩]).head? = some ⟨.infixKind, "-", 0, 1⟩
    ∧ teacup "-3 + 4" = .ok (.num .nan)
    ∧ teacup "(- 3) + 4" = .ok (.num (.fin 1)) :=
  C1_corrected ⟨.infixKind, "-", 0, 1⟩ [] rfl

/-- **C2** — counterexample.  For two `+` tokens (priority entry
`lassoc 505 = {left 505, right 504}`), the left token's right-priority
`504` is strictly below the right token's left-priority `505`, so the
claim demands `order = +1`; the source computes
`Math.sign(right.right_prio − left.left_prio) = sign(504 − 505) = −1`. -/
theorem C2_counterexample :
    getPrio ⟨.infixKind, "+", 0, 1⟩ = .ok ⟨505, 504⟩
    ∧ order (some ⟨.infixKind, "+", 0, 1⟩) (some ⟨.infixKind, "+", 0, 1⟩)
        = .ok (.val (-1))
    ∧ ((504 : Int) < 505 ∧ Except.ok (OrdRes.val (-1)) ≠ (.ok (.val 1) : Except Err OrdRes)) := by
  refine ⟨rfl, rfl, by omega, ?_⟩
  intro h
  cases OrdRes.val.inj (Except.ok.inj h)

/-- **C2** — as amended: for tokens with priority entries,
`order(left, right)` is `+1` exactly when the **left token's
left-priority** is strictly below the **right token's right-priority**
(`Math.sign(pb.right − pa.left)`), `−1` when strictly above, `0` when
equal; `done` when both tokens are absent. -/
theorem C2_corrected (a b : Token) (pa pb : Prio)
    (ha : getPrio a = .ok pa) (hb : getPrio b = .ok pb) :
    order (some a) (some b)
      = .ok (.val (if pa.left < pb.right then 1
          else if pb.right < pa.left then -1 else 0))
    ∧ order none none = .ok .done := by
  refine ⟨?_, rfl⟩
  simp only [order, ha, hb, Bind.bind, Except.bind]
  rcases lt_trichotomy pa.left pb.right with h | h | h
  · rw [Int.sign_eq_one_of_pos (by omega), if_pos h]
  · rw [h, sub_self, Int.sign_zero, if_neg (by omega), if_neg (by omega)]
  · rw [Int.sign_eq_neg_one_of_neg (by omega), if_neg (by omega), if_pos h]

/-- **C2** — witness for `C2_corrected` at two `+` tokens. -/
theorem C2_witness :
    order (some ⟨.infixKind, "+", 0, 1⟩) (some ⟨.infixKind, "+", 0, 1⟩)
      = .ok (.val (if (505 : Int) < 504 then 1 else if (504 : Int) < 505 then -1 else 0))
    ∧ order none none = .ok .done :=
  C2_corrected ⟨.infixKind, "+", 0, 1⟩ ⟨.infixKind, "+", 0, 1⟩ ⟨505, 504⟩ ⟨505, 504⟩ rfl rfl

/-- **C3** — confirmed.  For atom-priority operands, every
left-associative operator of the priority table (`+ - * / % and or`)
parses `a ⊙ b ⊙ c` as `(a ⊙ b) ⊙ c` and every right-associative
operator (`= -> ^`) parses it as `a ⊙ (b ⊙ c)`; in particular
`2 ^ 3 ^ 2` evaluates to `512`. -/
theorem C3_confirmed (t1 t2 t3 : Token)
    (h1 : getPrio t1 = .ok (xassoc 20005))
    (h2 : getPrio t2 = .ok (xassoc 20005))
    (h3 : getPrio t3 = .ok (xassoc 20005)) :
    (∀ o ∈ (["+", "-", "*", "/", "%", "and", "or"] : List String),
        parseTokens [t1, infixTok o, t2, infixTok o, t3]
          = .ok (some (leftNest t1 t2 t3 (infixTok o))))
    ∧ (∀ o ∈ (["=", "->", "^"] : List String),
        parseTokens [t1, infixTok o, t2, infixTok o, t3]
          = .ok (some (rightNest t1 t2 t3 (infixTok o))))
    ∧ teacup "2 ^ 3 ^ 2" = .ok (.num (.fin 512)) := by
  refine ⟨?_, ?_, by with_unfolding_all rfl⟩
  · intro o ho
    fin_cases ho
    · exact parse3_left t1 t2 t3 _ 505 504 h1 h2 h3 (by with_unfolding_all rfl)
        (by omega) (by omega) (by omega)
    · exact parse3_left t1 t2 t3 _ 505 504 h1 h2 h3 (by with_unfolding_all rfl)
        (by omega) (by omega) (by omega)
    · exact parse3_left t1 t2 t3 _ 605 604 h1 h2 h3 (by with_unfolding_all rfl)
        (by omega) (by omega) (by omega)
    · exact parse3_left t1 t2 t3 _ 605 604 h1 h2 h3 (by with_unfolding_all rfl)
        (by omega) (by omega) (by omega)
    · exact parse3_left t1 t2 t3 _ 605 604 h1 h2 h3 (by with_unfolding_all rfl)
        (by omega) (by omega) (by omega)
    · exact parse3_left t1 t2 t3 _ 125 124 h1 h2 h3 (by with_unfolding_all rfl)
        (by omega) (by omega) (by omega)
    · exact parse3_left t1 t2 t3 _ 115 114 h1 h2 h3 (by with_unfolding_all rfl)
        (by omega) (by omega) (by omega)
  · intro o ho
    fin_cases ho
    · exact parse3_right t1 t2 t3 _ 35 36 h1 h2 h3 (by with_unfolding_all rfl)
        (by omega) (by omega) (by omega)
    · exact parse3_right t1 t2 t3 _ 35 36 h1 h2 h3 (by with_unfolding_all rfl)
        (by omega) (by omega) (by omega)
    · exact parse3_right t1 t2 t3 _ 705 706 h1 h2 h3 (by with_unfolding_all rfl)
        (by omega) (by omega) (by omega)

/-- **C3** — witness for `C3_confirmed` at number-token operands
`1`, `2`, `3` with the operators `+` (left-associative) and `^`
(right-associative). -/
theorem C3_witness :
    parseTokens [⟨.numberKind, "1", 0, 1⟩, infixTok "+", ⟨.numberKind, "2", 4, 5⟩,
        infixTok "+", ⟨.numberKind, "3", 8, 9⟩]
      = .ok (some (leftNest ⟨.numberKind, "1", 0, 1⟩ ⟨.numberKind, "2", 4, 5⟩
          ⟨.numberKind, "3", 8, 9⟩ (infixTok "+")))
    ∧ parseTokens [⟨.numberKind, "1", 0, 1⟩, infixTok "^", ⟨.numberKind, "2", 4, 5⟩,
        infixTok "^", ⟨.numberKind, "3", 8, 9⟩]
      = .ok (some (rightNest ⟨.numberKind, "1", 0, 1⟩ ⟨.numberKind, "2", 4, 5⟩
          ⟨.numberKind, "3", 8, 9⟩ (infixTok "^")))
    ∧ teacup "2 ^ 3 ^ 2" = .ok (.num (.fin 512)) := by
  have h := C3_confirmed ⟨.numberKind, "1", 0, 1⟩ ⟨.numberKind, "2", 4, 5⟩
    ⟨.numberKind, "3", 8, 9⟩ rfl rfl rfl
  exact ⟨h.1 "+" (by simp), h.2.1 "^" (by simp), h.2.2⟩

/-- **C4** — counterexample.  The claim's example `let x = 10, y = x + 1
in y * 2 end` does not evaluate to `22`: the `let` handler evaluates a
value binding's expression in the **parent** environment
(`this.eval(decl[2], env)`), where `x` is not bound, so the program
raises `ReferenceError: Undefined variable: 'x'`. -/
theorem C4_counterexample :
    teacup "let x = 10, y = x + 1 in y * 2 end" = .error (.refUndefinedVar "x")
    ∧ (Except.error (Err.refUndefinedVar "x") : Except Err Value) ≠ .ok (.num (.fin 22)) := by
  refine ⟨rfl, ?_⟩
  intro h
  cases h

/-- **C4** — as amended: `let` bindings go into a fresh child frame; a
value binding's expression is evaluated in the **parent** environment
(so `y = x + 1` cannot see the preceding `x = 10` and the claim's
example raises `ReferenceError` instead of giving `22`); a function
binding's body runs in the new recursive frame (so `fact` can call
itself and `fact(5) = 120`); with the second binding made independent
of the first, the example yields `22`. -/
theorem C4_corrected :
    teacup "let x = 10, y = x + 1 in y * 2 end" = .error (.refUndefinedVar "x")
    ∧ teacup "let x = 10, y = 11 in y * 2 end" = .ok (.num (.fin 22))
    ∧ teacup "let fact(n) = if n == 0 then 1 else n * fact(n - 1) end in fact(5) end"
        = .ok (.num (.fin 120)) := by
  exact ⟨rfl, by with_unfolding_all rfl, by with_unfolding_all rfl⟩

/-- **C5** — counterexample.  The claim says an input containing a
character no rule consumes (here the backtick) makes the lexer raise a
lex error.  The source's `Lexer.prototype.process` has no error path:
unmatched characters become `null`-kind gap pieces that the final
filter drops, so `1 + \` 2` lexes to exactly `1 + 2` and the pipeline
returns `3`. -/
theorem C5_counterexample :
    (teacupLex "1 + ` 2").map Token.text = ["1", "+", "2"]
    ∧ teacup "1 + ` 2" = .ok (.num (.fin 3)) := by
  exact ⟨rfl, by with_unfolding_all rfl⟩

/-- **C5** — as amended: the default Teacup lexer never raises; a
character no rule can consume is silently dropped (for any input, every
emitted token survives the filter: nonempty text, not a comment), an
input of only unconsumable characters lexes to the empty stream, and a
program containing a stray backtick still evaluates. -/
theorem C5_corrected :
    (∀ s : String, ∀ t ∈ teacupLex s, t.text ≠ "" ∧ t.type ≠ .commentKind)
    ∧ teacupLex "`" = []
    ∧ teacup "`1 + 2" = .ok (.num (.fin 3)) := by
  refine ⟨fun s t ht => lexLoop_filtered _ _ _ _ _ ht, rfl, by with_unfolding_all rfl⟩

/-- **C5** — witness for the universal part of `C5_corrected`: the
token of the one-word program `"x"`. -/
theorem C5_witness :
    (⟨.wordKind, "x", 0, 1⟩ : Token).text ≠ ""
    ∧ (⟨.wordKind, "x", 0, 1⟩ : Token).type ≠ .commentKind :=
  C5_corrected.1 "x" ⟨.wordKind, "x", 0, 1⟩ (by rw [show teacupLex "x" = [⟨.wordKind, "x", 0, 1⟩] from rfl]; exact List.mem_singleton.mpr rfl)

/-- One step of the interpreter at positive fuel. -/
theorem eval_succ (g : Nat) (a : Ast) (env : Env) :
    eval (g+1) a env = dispatch (eval g) a env := rfl

/-- **C6** — confirmed.  When a call's resolved callee is the lazy
`or` builtin, the arguments are deferred: if the first argument
evaluates to a truthy value `v`, the call returns `v` and the second
argument expression `b` — completely arbitrary here, it may even be
one whose evaluation would fail — is never evaluated.  End to end,
`true or (1 / 0)` evaluates to `true`, and so does `true or zzz` even
though `zzz` is unbound (its evaluation would raise). -/
theorem C6_confirmed (f : Nat) (a b : Ast) (env : Env) (opTok : Token) (v : Value)
    (rest : List Token) (s e : Nat)
    (hk : opTok.type = .infixKind)
    (hor : lookupEnv env opTok.text = some (.builtin "or" true))
    (ha : eval (f+1) a env = .ok v)
    (hv : truthy v = true) :
    eval (f+2) (.node ["E", "or", "E"] [a, b] (opTok :: rest) s e) env = .ok v
    ∧ teacup "true or (1 / 0)" = .ok (.bool true)
    ∧ teacup "true or zzz" = .ok (.bool true) := by
  refine ⟨?_, rfl, rfl⟩
  have hres : resolve env opTok.text = .ok (.builtin "or" true) := by
    cases env with
    | undefEnv => simp [lookupEnv] at hor
    | nil => simp [resolve, hor]
    | frame bs p => simp [resolve, hor]
    | recFrame es p => simp [resolve, hor]
  have e1 : eval (f+2) (.node ["E", "or", "E"] [a, b] (opTok :: rest) s e) env
      = runCallWith (eval (f+1)) (.node ["E", "or", "E"] [a, b] (opTok :: rest) s e) env := by
    with_unfolding_all rfl
  have e2 : normalizeCall (.node ["E", "or", "E"] [a, b] (opTok :: rest) s e)
      = .ok (some (.tok opTok, [a, b])) := by
    with_unfolding_all rfl
  have e3 : eval (f+1) (.tok opTok) env = .ok (.builtin "or" true) := by
    rw [eval_succ]
    show evalLeaf opTok env = _
    simp [evalLeaf, hk, hres]
  rw [e1, runCallWith, e2]
  simp only [Bind.bind, Except.bind, e3]
  simp only [lazyApply, ha, Except.bind, hv, if_true, ite_true]
  simp [Bind.bind, Except.bind, hv]


/-- **C6** — witness for `C6_confirmed`: `true or zzz` as a
constructed node over the root environment. -/
theorem C6_witness :
    eval (0+2) (.node ["E", "or", "E"]
        [.tok ⟨.wordKind, "true", 0, 4⟩, .tok ⟨.wordKind, "zzz", 8, 11⟩]
        [⟨.infixKind, "or", 5, 7⟩] 0 11) (.frame rootBindings .nil)
      = .ok (.bool true)
    ∧ teacup "true or (1 / 0)" = .ok (.bool true)
    ∧ teacup "true or zzz" = .ok (.bool true) :=
  C6_confirmed 0 (.tok ⟨.wordKind, "true", 0, 4⟩) (.tok ⟨.wordKind, "zzz", 8, 11⟩)
    (.frame rootBindings .nil) ⟨.infixKind, "or", 5, 7⟩ (.bool true) [] 0 11
    rfl rfl rfl rfl

/-- **C7** — counterexample.  With `k` bound to `0`, the iterated
index `[[1,2],[3,4]][k, 1]` evaluates to `2`, but the supposedly
equivalent `[[1,2],[3,4]][k][1]` raises a `TypeError`: the indexing
handler evaluates the object expression with **no** environment
(`this.eval(obj)`), so the inner `…[k]` node — which, on the right,
sits in object position — resolves `k` against `undefined`. -/
theorem C7_counterexample :
    teacup "let k = 0 in [[1,2],[3,4]][k, 1] end" = .ok (.num (.fin 2))
    ∧ teacup "let k = 0 in [[1,2],[3,4]][k][1] end" = .error .typeError := by
  exact ⟨by with_unfolding_all rfl, rfl⟩

/-- **C7** — as amended: the comma-separated index list is folded
left-to-right with `getField`, starting from the object evaluated
**without an environment**; consequently `x[i, j] ≡ x[i][j]` holds
whenever the index expressions are environment-independent (here:
number literals) and the object expression evaluates the same under
the missing environment at either fuel — but not in general (see the
counterexample, where the index is a variable). -/
theorem C7_corrected (f : Nat) (x : Ast) (i j : Token) (env : Env) (vx : Value)
    (iops jops cops : List Token) (s1 e1 s2 e2 s3 e3 s4 e4 : Nat)
    (hi : i.type = .numberKind) (hj : j.type = .numberKind)
    (h1 : eval (f+1) x .undefEnv = .ok vx)
    (h2 : eval (f+2) x .undefEnv = .ok vx) :
    eval (f+3) (.node ["E", "[", "E", "]", "_"]
        [x, .node ["E", ",", "E"] [.tok i, .tok j] cops s2 e2] iops s1 e1) env
      = eval (f+3) (.node ["E", "[", "E", "]", "_"]
          [.node ["E", "[", "E", "]", "_"] [x, .tok i] jops s3 e3, .tok j] cops s4 e4) env := by
  have li : ∀ (g : Nat) (envA : Env),
      eval (g+1) (.tok i) envA = .ok (.num (.fin (parseNumber i.text))) := by
    intro g envA
    rw [eval_succ]
    show evalLeaf i envA = _
    simp [evalLeaf, hi]
  have lj : ∀ (g : Nat) (envA : Env),
      eval (g+1) (.tok j) envA = .ok (.num (.fin (parseNumber j.text))) := by
    intro g envA
    rw [eval_succ]
    show evalLeaf j envA = _
    simp [evalLeaf, hj]
  have el : eval (f+3) (.node ["E", "[", "E", "]", "_"]
        [x, .node ["E", ",", "E"] [.tok i, .tok j] cops s2 e2] iops s1 e1) env
      = (do let base ← eval (f+2) x .undefEnv
            foldIndex (eval (f+2)) [.tok i, .tok j] env base) := by
    with_unfolding_all rfl
  have einner : eval (f+2) (.node ["E", "[", "E", "]", "_"] [x, .tok i] jops s3 e3) .undefEnv
      = (do let base ← eval (f+1) x .undefEnv
            foldIndex (eval (f+1)) [.tok i] .undefEnv base) := by
    with_unfolding_all rfl
  have er : eval (f+3) (.node ["E", "[", "E", "]", "_"]
        [.node ["E", "[", "E", "]", "_"] [x, .tok i] jops s3 e3, .tok j] cops s4 e4) env
      = (do let base ← eval (f+2) (.node ["E", "[", "E", "]", "_"] [x, .tok i] jops s3 e3) .undefEnv
            foldIndex (eval (f+2)) [.tok j] env base) := by
    with_unfolding_all rfl
  rw [el, er, einner, h1, h2]
  simp only [Bind.bind, Except.bind, foldIndex, li, lj]
  cases hgi : getField vx (.num (.fin (parseNumber i.text))) with
  | error err => simp [Except.bind]
  | ok a1 =>
    cases hgj : getField a1 (.num (.fin (parseNumber j.text))) with
    | error err => simp [Except.bind]
    | ok a2 => simp [Except.bind]

/-- **C7** — witness for `C7_corrected`: the object `[10, 20]` (as a
constructed list-literal node) indexed at the number literals `0` and
`0`: `x[0, 0]` and `x[0][0]` denote the same computation. -/
theorem C7_witness :
    eval (2+3) (.node ["E", "[", "E", "]", "_"]
        [.node ["_", "[", "E", "]", "_"]
           [.node ["E", ",", "E"]
              [.tok ⟨.numberKind, "10", 1, 3⟩, .tok ⟨.numberKind, "20", 5, 7⟩]
              [⟨.infixKind, ",", 3, 4⟩] 1 7]
           [⟨.openKind, "[", 0, 1⟩, ⟨.closeKind, "]", 7, 8⟩] 0 8,
         .node ["E", ",", "E"]
           [.tok ⟨.numberKind, "0", 9, 10⟩, .tok ⟨.numberKind, "0", 12, 13⟩]
           [⟨.infixKind, ",", 10, 11⟩] 9 13] [] 0 14) .nil
      = eval (2+3) (.node ["E", "[", "E", "]", "_"]
          [.node ["E", "[", "E", "]", "_"]
             [.node ["_", "[", "E", "]", "_"]
                [.node ["E", ",", "E"]
                   [.tok ⟨.numberKind, "10", 1, 3⟩, .tok ⟨.numberKind, "20", 5, 7⟩]
                   [⟨.infixKind, ",", 3, 4⟩] 1 7]
                [⟨.openKind, "[", 0, 1⟩, ⟨.closeKind, "]", 7, 8⟩] 0 8,
              .tok ⟨.numberKind, "0", 9, 10⟩] [] 0 11,
           .tok ⟨.numberKind, "0", 12, 13⟩]
          [⟨.infixKind, ",", 10, 11⟩] 0 14) .nil :=
  C7_corrected 2
    (.node ["_", "[", "E", "]", "_"]
       [.node ["E", ",", "E"]
          [.tok ⟨.numberKind, "10", 1, 3⟩, .tok ⟨.numberKind, "20", 5, 7⟩]
          [⟨.infixKind, ",", 3, 4⟩] 1 7]
       [⟨.openKind, "[", 0, 1⟩, ⟨.closeKind, "]", 7, 8⟩] 0 8)
    ⟨.numberKind, "0", 9, 10⟩ ⟨.numberKind, "0", 12, 13⟩ .nil
    (.list [.num (.fin (parseNumber "10")), .num (.fin (parseNumber "20"))])
    [] [] [⟨.infixKind, ",", 10, 11⟩] 0 14 9 13 0 11 0 14
    rfl rfl (by with_unfolding_all rfl) (by with_unfolding_all rfl)

/-- The `( elif E then E)*` chunks of an `if`-signature. -/
def elifChunks : Nat → List String
  | 0 => []
  | k+1 => "elif" :: "E" :: "then" :: "E" :: elifChunks k

/-- The signature of an `if`-node with `k` `elif` clauses and no
`else`. -/
def ifSigNoElse (k : Nat) : List String :=
  "_" :: "if" :: "E" :: "then" :: "E" :: (elifChunks k ++ ["end", "_"])

/-- The argument list of an `if`-node: its condition/branch pairs in
order. -/
def pairsArgs : List (Ast × Ast) → List Ast
  | [] => []
  | (c, b) :: rest => c :: b :: pairsArgs rest

theorem ifTailMatch_elif (l : List String) :
    ifTailMatch ("elif" :: "E" :: "then" :: "E" :: l) = ifTailMatch l := by
  with_unfolding_all rfl

theorem chunks_any (p : String → Bool) (he : p "elif" = false) (hE : p "E" = false)
    (ht : p "then" = false) : ∀ k : Nat, (elifChunks k).any p = false := by
  intro k
  induction k with
  | zero => rfl
  | succ k ih => simp [elifChunks, List.any_cons, he, hE, ht, ih]

theorem seqMatch_ifSig (k : Nat) : seqMatch (ifSigNoElse k) = false := by
  simp only [seqMatch, ifSigNoElse, List.any_cons, List.any_append]
  rw [chunks_any _ rfl rfl rfl k]
  decide

theorem ifMatch_ifSig (k : Nat) : ifMatch (ifSigNoElse k) = true := by
  show ifTailMatch (elifChunks k ++ ["end", "_"]) = true
  induction k with
  | zero => rfl
  | succ k ih =>
    rw [show elifChunks (k+1) ++ ["end", "_"]
        = "elif" :: "E" :: "then" :: "E" :: (elifChunks k ++ ["end", "_"]) by
      simp [elifChunks]]
    rw [ifTailMatch_elif]
    exact ih

/-- The `if` handler's loop on an even queue of all-falsy conditions
falls through and returns `undefined`. -/
theorem evalIf_allFalse (ev : EvalFn) (env : Env) :
    ∀ pairs : List (Ast × Ast),
      (∀ p ∈ pairs, ∃ v, ev p.1 env = .ok v ∧ truthy v = false) →
      evalIfWith ev (pairsArgs pairs) env = .ok .undefV := by
  intro pairs
  induction pairs with
  | nil => intro _; rfl
  | cons cb rest ih =>
    intro h
    obtain ⟨c, b⟩ := cb
    obtain ⟨v, hv, htr⟩ := h (c, b) (List.mem_cons_self _ _)
    show evalIfWith ev (c :: b :: pairsArgs rest) env = .ok .undefV
    rw [show evalIfWith ev (c :: b :: pairsArgs rest) env
        = (do let vc ← ev c env
              if truthy vc then ev b env else evalIfWith ev (pairsArgs rest) env) from rfl]
    rw [hv]
    simp only [Bind.bind, Except.bind, htr, Bool.false_eq_true, if_false, ite_false]
    exact ih (fun p hp => h p (List.mem_cons_of_mem _ hp))

/-- **C10** — confirmed.  For every if-node without an `else` clause
(signature `_ if E then E ( elif E then E)* end _`, here with `k`
`elif` clauses and `k + 1` condition/branch pairs as arguments), if
every condition evaluates to a falsy value, `eval` returns the
`undefined` value rather than raising. -/
theorem C10_confirmed (f k : Nat) (pairs : List (Ast × Ast)) (env : Env)
    (ops : List Token) (s e : Nat)
    (_hk : pairs.length = k + 1)
    (hconds : ∀ p ∈ pairs, ∃ v, eval (f+1) p.1 env = .ok v ∧ truthy v = false) :
    eval (f+2) (.node (ifSigNoElse k) (pairsArgs pairs) ops s e) env = .ok .undefV := by
  have n1 : ifSigNoElse k ≠ ["_", "for", "E", "in", "E", "when", "E", "do", "E", "end", "_"] := by
    simp [ifSigNoElse]
  have n2 : ifSigNoElse k ≠ ["_", "for", "E", "in", "E", "do", "E", "end", "_"] := by
    simp [ifSigNoElse]
  have n3 : ifSigNoElse k ≠ ["_", "let", "E", "in", "E", "end", "_"] := by
    simp [ifSigNoElse]
  have n4 : ifSigNoElse k ≠ ["E", "->", "E"] := by
    simp [ifSigNoElse]
  rw [show f + 2 = (f+1)+1 from rfl, eval_succ, dispatch]
  rw [if_neg n1, if_neg n2, if_neg n3, if_neg n4,
    if_neg (by rw [seqMatch_ifSig]; exact Bool.false_ne_true),
    if_pos (by rw [ifMatch_ifSig])]
  exact evalIf_allFalse (eval (f+1)) env pairs hconds

/-- **C10** — witness: `if false then a elif false then b end` over
the root environment. -/
theorem C10_witness :
    eval (0+2) (.node (ifSigNoElse 1)
        (pairsArgs [(.tok ⟨.wordKind, "false", 3, 8⟩, .tok ⟨.wordKind, "a", 0, 0⟩),
                    (.tok ⟨.wordKind, "false", 3, 8⟩, .tok ⟨.wordKind, "b", 0, 0⟩)])
        [] 0 0) (.frame rootBindings .nil) = .ok .undefV := by
  refine C10_confirmed 0 1
    [(.tok ⟨.wordKind, "false", 3, 8⟩, .tok ⟨.wordKind, "a", 0, 0⟩),
     (.tok ⟨.wordKind, "false", 3, 8⟩, .tok ⟨.wordKind, "b", 0, 0⟩)]
    (.frame rootBindings .nil) [] 0 0 rfl ?_
  intro p hp
  rcases List.mem_cons.mp hp with h | h
  · subst h; exact ⟨.bool false, rfl, rfl⟩
  · rcases List.mem_cons.mp h with h2 | h2
    · subst h2; exact ⟨.bool false, rfl, rfl⟩
    · simp at h2

/-- **C8** — confirmed.  The finalizer maps the trivial handle
`[NONE, t, NONE]` to the bare token `t`; parsing any single-token
program yields that bare token; and the leaf semantics hold end to
end: a `number` program parses its text (`42`), a `string` program
strips the quotes (`"hi"`), a `word` program resolves the name in the
root environment (`true`). -/
theorem C8_confirmed :
    (∀ t : Token, finalize [.opd none, .oper (some t), .opd none] = .ok (.tok t))
    ∧ (∀ t : Token, parseTokens [t] = .ok (some (.tok t)))
    ∧ teacup "42" = .ok (.num (.fin 42))
    ∧ teacup "\"hi\"" = .ok (.str "hi")
    ∧ teacup "true" = .ok (.bool true) := by
  exact ⟨fun t => rfl, parseTokens_single, by with_unfolding_all rfl, rfl, rfl⟩

/-- **C9** — confirmed.  The prefix tagger is idempotent: running
`tagPrefixOperators` on its own output returns the stream unchanged
(in particular the sequence of token kinds is unchanged). -/
theorem C9_confirmed (ts : List Token) :
    tagPrefixOperators (tagPrefixOperators ts) = tagPrefixOperators ts :=
  tagLoop_idem ts .start .start (fun h => h) (by simp) (by simp)

end Teacup
